import Mathlib

/-!
Verification of the HFR topic crawler (`parse_topic.py`).

Shallow embedding notes:
* `pyquery` query results are modelled structurally: an `HtmlPage` carries the
  raw content string together with the query results the code reads from it —
  the list of `.messagetable` blocks and the list of `.fondForum2PagesHaut
  .cHeader` elements.  A block carries the values `post(".s2").html()` and
  `post(".toolbar .left").html()` would return; pyquery's `.html()` yields
  `None` when no element matches (or the element is empty), hence `Option
  String`.
* Python exceptions are modelled with `Except Err`; the distinct `Err`
  constructors keep the different exception kinds of the source apart
  (AssertionError sites, TypeError, ValueError, network errors).
* `datetime` values are modelled by `NaiveDT`/`PyDatetime`: `strptime`
  validates field ranges, `PARIS_TZ.localize` attaches the fixed zone name.
* async orchestration (`asyncio.gather`, the chunked loop of
  `parse_all_pages`) is modelled by explicit sequencing over lists; the
  generator's output is the pair (records yielded, terminating error if any).
-/

deriving instance DecidableEq for Except

namespace HfrTopic

/-- Exception kinds raised by the source, kept distinct per raise site. -/
inductive Err where
  /-- AssertionError: "content parameter must be a non-empty string" -/
  | emptyContent
  /-- TypeError: `re.search` applied to `None` (block without `.toolbar .left`) -/
  | noToolbar
  /-- AssertionError: "Unable to parse post timestap" -/
  | timestampNoMatch
  /-- ValueError from `datetime.datetime.strptime` (out-of-range field) -/
  | badDatetime
  /-- AssertionError: "Unable to parse .fondForum2PagesHaut .cHeader ..." -/
  | noPageCount
  /-- AttributeError: `None.isdigit()` (empty pagination header element) -/
  | attributeError
  /-- AssertionError: "... parameter must be a positive integer" in `__init__` -/
  | badConfig
  /-- AssertionError: "number parameter must be a positive integer" -/
  | badPageNumber
  /-- network-level failure surfaced by the retry client after exhaustion -/
  | fetchFailed
deriving DecidableEq

/-- Naive `datetime.datetime`: full date + time + seconds resolution. -/
structure NaiveDT where
  year : Nat
  month : Nat
  day : Nat
  hour : Nat
  minute : Nat
  second : Nat
deriving DecidableEq

/-- A Python datetime is either naive or carries a timezone. -/
inductive PyDatetime where
  | naive (dt : NaiveDT)
  | aware (dt : NaiveDT) (zone : String)
deriving DecidableEq

/-- `HfrPost` dataclass.  The source annotates `author: str` but performs no
runtime check; `parse_page` stores the raw result of `post(".s2").html()`,
which is `None` when the block has no `.s2` element, so the field is modelled
as `Option String`. -/
structure HfrPost where
  author : Option String
  timestamp : PyDatetime
deriving DecidableEq

/-- One `.messagetable` block, as the queries in `parse_page` see it. -/
structure MessageBlock where
  /-- value of `post(".s2").html()` -/
  author : Option String
  /-- value of `post(".toolbar .left").html()` -/
  toolbarLeft : Option String
deriving DecidableEq

/-- One fetched page: raw text plus the query results read from it. -/
structure HtmlPage where
  content : String
  /-- the `.messagetable` blocks, in document order -/
  messageBlocks : List MessageBlock
  /-- `x.html()` for each `.fondForum2PagesHaut .cHeader` element of the page -/
  pageHeaders : List (Option String)
deriving DecidableEq

/-- ASCII digit test, the fragment of Python `str.isdigit`/`int` relevant to
numeric page labels. -/
def isDigitChar (c : Char) : Bool := '0' ≤ c && c ≤ '9'

/-- numeric value of an ASCII digit -/
def digitVal (c : Char) : Nat := c.toNat - 48

/-- Python `s.isdigit()` on ASCII text: non-empty and all digits. -/
def pyIsdigit (s : String) : Bool := !s.isEmpty && s.data.all isDigitChar

/-- Python `int(s)` for a digit string. -/
def natOfDigits (s : String) : Nat := s.data.foldl (fun a c => a * 10 + digitVal c) 0

/-- Try to match the regex
`Posté le (?P<date>[0-9]{2}-[0-9]{2}-[0-9]{4})\xa0à\xa0(?P<time>[0-9]{2}:[0-9]{2}:[0-9]{2})`
at the head of the character list; returns (day, month, year, hour, minute,
second) read from the two groups. -/
def matchTsAt : List Char → Option (Nat × Nat × Nat × Nat × Nat × Nat)
  | 'P' :: 'o' :: 's' :: 't' :: 'é' :: ' ' :: 'l' :: 'e' :: ' ' ::
      d1 :: d2 :: '-' :: m1 :: m2 :: '-' :: y1 :: y2 :: y3 :: y4 ::
      '\u00A0' :: 'à' :: '\u00A0' ::
      h1 :: h2 :: ':' :: i1 :: i2 :: ':' :: s1 :: s2 :: _ =>
    if isDigitChar d1 && isDigitChar d2 && isDigitChar m1 && isDigitChar m2 &&
        isDigitChar y1 && isDigitChar y2 && isDigitChar y3 && isDigitChar y4 &&
        isDigitChar h1 && isDigitChar h2 && isDigitChar i1 && isDigitChar i2 &&
        isDigitChar s1 && isDigitChar s2 then
      some (digitVal d1 * 10 + digitVal d2,
            digitVal m1 * 10 + digitVal m2,
            ((digitVal y1 * 10 + digitVal y2) * 10 + digitVal y3) * 10 + digitVal y4,
            digitVal h1 * 10 + digitVal h2,
            digitVal i1 * 10 + digitVal i2,
            digitVal s1 * 10 + digitVal s2)
    else none
  | _ => none

/-- `re.search`: leftmost match of the timestamp pattern. -/
def searchTs : List Char → Option (Nat × Nat × Nat × Nat × Nat × Nat)
  | [] => none
  | c :: rest =>
    match matchTsAt (c :: rest) with
    | some r => some r
    | none => searchTs rest

/-- Gregorian leap year, as `datetime` uses. -/
def isLeapYear (y : Nat) : Bool := (y % 4 == 0 && y % 100 != 0) || y % 400 == 0

/-- days in a month, as `datetime` validates them -/
def daysInMonth (y m : Nat) : Nat :=
  if m = 2 then (if isLeapYear y then 29 else 28)
  else if m = 4 ∨ m = 6 ∨ m = 9 ∨ m = 11 then 30
  else 31

/-- `datetime.datetime.strptime(f"{date} {time}", "%d-%m-%Y %H:%M:%S")` on the
numbers captured by the regex: validates field ranges, raising ValueError
(modelled as `none`) outside them. -/
def strptime_dmY_HMS (d mo y h mi s : Nat) : Option NaiveDT :=
  if 1 ≤ y ∧ y ≤ 9999 ∧ 1 ≤ mo ∧ mo ≤ 12 ∧ 1 ≤ d ∧ d ≤ daysInMonth y mo ∧
      h ≤ 23 ∧ mi ≤ 59 ∧ s ≤ 59 then
    some ⟨y, mo, d, h, mi, s⟩
  else none

/-- `PARIS_TZ.localize(timestamp_naive)`: attaches the fixed zone. -/
def PARIS_TZ_localize (dt : NaiveDT) : PyDatetime := .aware dt "Europe/Paris"

/-- Body of the per-block work in `parse_page` after the advertisement check:
read the toolbar, regex-search the timestamp, `strptime`, localize. -/
def parseBlock (b : MessageBlock) : Except Err HfrPost :=
  match b.toolbarLeft with
  | none => .error .noToolbar
  | some t =>
    match searchTs t.data with
    | none => .error .timestampNoMatch
    | some (d, mo, y, h, mi, s) =>
      match strptime_dmY_HMS d mo y h mi s with
      | none => .error .badDatetime
      | some dt => .ok ⟨b.author, PARIS_TZ_localize dt⟩

/-- The `for post in posts.items()` loop of `parse_page`: skip blocks whose
author is the advertisement sentinel, abort entirely on any block error
(a raised exception discards `res`). -/
def parseBlocks : List MessageBlock → Except Err (List HfrPost)
  | [] => .ok []
  | b :: bs =>
    if b.author = some "Publicité" then parseBlocks bs
    else
      match parseBlock b with
      | .error e => .error e
      | .ok post =>
        match parseBlocks bs with
        | .error e => .error e
        | .ok posts => .ok (post :: posts)

/-- `HfrCovid19.parse_page`: assert non-empty content, then process the
`.messagetable` blocks in document order. -/
def parse_page (page : HtmlPage) : Except Err (List HfrPost) :=
  if page.content = "" then .error .emptyContent
  else parseBlocks page.messageBlocks

/-- The list comprehension `[x.html() for x in page_headers.items()]` followed
by element-wise use: a `None` element makes `x.isdigit()` raise
AttributeError, so the whole computation fails as soon as any header element
carries no text. -/
def allSome : List (Option String) → Option (List String)
  | [] => some []
  | none :: _ => none
  | some s :: rest =>
    match allSome rest with
    | none => none
    | some ss => some (s :: ss)

/-- `HfrCovid19.get_total_page_count`, applied to the (already fetched) first
page: keep the purely numeric pagination header labels, assert at least one
exists, return their maximum (`max` of a non-empty list = left fold of
`Nat.max` over the tail, starting from the head). -/
def get_total_page_count (page1 : HtmlPage) : Except Err Nat :=
  match allSome page1.pageHeaders with
  | none => .error .attributeError
  | some vals =>
    match (vals.filter pyIsdigit).map natOfDigits with
    | [] => .error .noPageCount
    | m :: rest => .ok (rest.foldl Nat.max m)

/-- A Python value as it reaches an `isinstance(x, int) and x > 0` assertion:
either an `int` or something of another type. -/
inductive PyVal where
  | vint (n : Int)
  | vnonint
deriving DecidableEq

/-- `isinstance(x, int) and x > 0` -/
def isPosInt : PyVal → Bool
  | .vint n => 0 < n
  | .vnonint => false

/-- The validated crawl configuration stored on the instance. -/
structure Config where
  cat : Int
  sub_cat : Int
  post : Int
deriving DecidableEq

/-- `HfrCovid19.__init__`: assert all three identifiers are positive
integers before anything else (client construction involves no network). -/
def HfrCovid19_init (cat sub_cat post : PyVal) : Except Err Config :=
  match cat, sub_cat, post with
  | .vint c, .vint s, .vint p =>
    if 0 < c ∧ 0 < s ∧ 0 < p then .ok ⟨c, s, p⟩ else .error .badConfig
  | _, _, _ => .error .badConfig

/-- The GET request `get_page_content` issues: fixed URL plus the query
parameters built from the configuration and the page number. -/
structure HttpRequest where
  url : String
  config : String
  cat : Int
  subcat : Int
  post : Int
  page : Int
deriving DecidableEq

/-- The pure prefix of `HfrCovid19.get_page_content`: assert the page number
is a positive integer, then build the request; on assertion failure no
request value is ever produced (the HTTP call is the external step that
consumes the returned `HttpRequest`). -/
def get_page_content_request (cfg : Config) (number : PyVal) : Except Err HttpRequest :=
  match number with
  | .vint n =>
    if 0 < n then
      .ok ⟨"https://forum.hardware.fr/forum2.php", "hfr.inc", cfg.cat, cfg.sub_cat, cfg.post, n⟩
    else .error .badPageNumber
  | .vnonint => .error .badPageNumber

/-- Severity of a log record. -/
inductive LogLevel where
  | info
  | warning
deriving DecidableEq

/-- One observability event emitted by the request-start trace hook. -/
structure LogEvent where
  level : LogLevel
  method : String
  url : String
  attempt : Nat
  maxAttempts : Nat
deriving DecidableEq

/-- `HfrCovid19._on_request_start` (the aiohttp trace hook): emits nothing on
the first attempt; for `current_attempt > 1` it logs
"Retrying METHOD at URL (current/max)" — at INFO level when
`self._retry_options.attempts <= current_attempt` and at WARNING level
otherwise.  `attempts` is the configured maximum (3 in the source). -/
def on_request_start (attempts : Nat) (method url : String) (current_attempt : Nat) :
    Option LogEvent :=
  if current_attempt > 1 then
    if attempts ≤ current_attempt then
      some ⟨.info, method, url, current_attempt, attempts⟩
    else
      some ⟨.warning, method, url, current_attempt, attempts⟩
  else none

/-- Severity the spec prescribes for retry attempt `current` of `attempts`:
informational while below the configured maximum, warning once the final
configured attempt is reached. -/
def specRetryLevel (attempts current : Nat) : LogLevel :=
  if current < attempts then .info else .warning

/-- Fuel-indexed body of `more_itertools.chunked`: repeatedly take `n`
elements (the head plus `n-1` more) until the list is exhausted.  The fuel
(always instantiated with the list length) only makes the recursion
structural. -/
def chunkedAux (n : Nat) : Nat → List α → List (List α)
  | _, [] => []
  | 0, _ :: _ => []
  | fuel + 1, x :: xs => (x :: xs.take (n - 1)) :: chunkedAux n fuel (xs.drop (n - 1))

/-- `more_itertools.chunked(iterable, n)` for `n ≥ 1`: break a list into
consecutive chunks of size `n`, the last one possibly shorter. -/
def chunked (n : Nat) (l : List α) : List (List α) := chunkedAux n l.length l

/-- `asyncio.gather(*coros)`: all results in argument order, or the error of
a failing task (none of the per-task results are delivered then). -/
def gather : List (Except Err α) → Except Err (List α)
  | [] => .ok []
  | .error e :: _ => .error e
  | .ok a :: rest =>
    match gather rest with
    | .error e => .error e
    | .ok as => .ok (a :: as)

/-- The inner loop of `parse_all_pages` over one gathered chunk: parse each
page in order, yielding its records; a parse failure stops the generator
there, keeping the records already yielded from earlier pages of the chunk. -/
def drainChunk : List HtmlPage → List HfrPost × Option Err
  | [] => ([], none)
  | p :: rest =>
    match parse_page p with
    | .error e => ([], some e)
    | .ok posts => (posts ++ (drainChunk rest).1, (drainChunk rest).2)

/-- The chunk loop of `parse_all_pages`: for each chunk of page numbers, in
order, gather all fetches of the chunk, then parse and yield page by page;
any failure terminates the whole sequence with that failure. -/
def runChunks (fetch : Nat → Except Err HtmlPage) : List (List Nat) → List HfrPost × Option Err
  | [] => ([], none)
  | ch :: rest =>
    match gather (ch.map fetch) with
    | .error e => ([], some e)
    | .ok contents =>
      match drainChunk contents with
      | (posts, some e) => (posts, some e)
      | (posts, none) => (posts ++ (runChunks fetch rest).1, (runChunks fetch rest).2)

/-- `HfrCovid19.parse_all_pages` as the consumer observes it: the records the
async generator yields, paired with the failure that terminated it (if any).
`fetch` abstracts `get_page_content` for each page number; page 1 is fetched
once for page-count discovery and again inside the first chunk, exactly as in
the source. -/
def parse_all_pages (fetch : Nat → Except Err HtmlPage) : List HfrPost × Option Err :=
  match fetch 1 with
  | .error e => ([], some e)
  | .ok page1 =>
    match get_total_page_count page1 with
    | .error e => ([], some e)
    | .ok maxPage => runChunks fetch (chunked 100 (List.range' 1 maxPage))

/-- The toolbar text of section 8's example:
`"Posté le 15-03-2020\xa0à\xa014:30:05"`. -/
def exampleToolbar : String := "Posté le 15-03-2020 à 14:30:05"

/-- The timestamp that toolbar denotes, localized. -/
def exampleStamp : PyDatetime := .aware ⟨2020, 3, 15, 14, 30, 5⟩ "Europe/Paris"

/-- A page whose single message block has no `.s2` element (pyquery `.html()`
returns `None`) but a well-formed toolbar. -/
def authorlessPage : HtmlPage := ⟨"c", [⟨none, some exampleToolbar⟩], []⟩

/-- First page whose pagination header labels are 1, 2, 10 and "Prev". -/
def headerExamplePage : HtmlPage := ⟨"h", [], [some "1", some "2", some "10", some "Prev"]⟩

/-- First page of a two-page topic, with no message blocks. -/
def twoPage : HtmlPage := ⟨"h", [], [some "2"]⟩

/-- The claimed data-model invariant on the author field: non-empty text. -/
def authorNonEmpty (r : HfrPost) : Prop := ∃ s, r.author = some s ∧ s ≠ ""

/- ### Support lemmas -/

theorem dropLength_le (n : Nat) (l : List α) : (l.drop n).length ≤ l.length := by
  simp

theorem chunkedAux_congr (n : Nat) :
    ∀ (f₁ : Nat) (l : List α) (f₂ : Nat), l.length ≤ f₁ → l.length ≤ f₂ →
      chunkedAux n f₁ l = chunkedAux n f₂ l := by
  intro f₁
  induction f₁ with
  | zero =>
    intro l f₂ h1 _
    have : l = [] := List.length_eq_zero.mp (Nat.le_zero.mp h1)
    subst this
    cases f₂ <;> rfl
  | succ f ih =>
    intro l f₂ h1 h2
    cases l with
    | nil => cases f₂ <;> rfl
    | cons x xs =>
      cases f₂ with
      | zero => exact absurd h2 (by simp)
      | succ f₂' =>
        simp only [chunkedAux, List.cons.injEq, true_and]
        apply ih
        · exact le_trans (dropLength_le (n - 1) xs) (by simpa using h1)
        · exact le_trans (dropLength_le (n - 1) xs) (by simpa using h2)

theorem chunked_cons (n : Nat) (x : α) (xs : List α) :
    chunked n (x :: xs) = (x :: xs.take (n - 1)) :: chunked n (xs.drop (n - 1)) := by
  simp only [chunked, List.length_cons, chunkedAux, List.cons.injEq, true_and]
  apply chunkedAux_congr
  · exact dropLength_le (n - 1) xs
  · exact le_rfl

theorem chunked_flatten (n : Nat) (l : List α) : (chunked n l).flatten = l := by
  suffices h : ∀ (fuel : Nat) (l : List α), l.length ≤ fuel →
      (chunkedAux n fuel l).flatten = l from h l.length l le_rfl
  intro fuel
  induction fuel with
  | zero =>
    intro l h1
    have : l = [] := List.length_eq_zero.mp (Nat.le_zero.mp h1)
    subst this
    rfl
  | succ f ih =>
    intro l h1
    cases l with
    | nil => rfl
    | cons x xs =>
      simp only [chunkedAux, List.flatten_cons]
      rw [ih (xs.drop (n - 1))
        (le_trans (dropLength_le (n - 1) xs) (by simpa using h1))]
      simp [List.take_append_drop]

theorem chunked_length_le (n : Nat) (hn : 1 ≤ n) (l : List α) :
    ∀ c ∈ chunked n l, c.length ≤ n := by
  suffices h : ∀ (fuel : Nat) (l : List α), ∀ c ∈ chunkedAux n fuel l, c.length ≤ n from
    h l.length l
  intro fuel
  induction fuel with
  | zero =>
    intro l c hc
    cases l <;> simp [chunkedAux] at hc
  | succ f ih =>
    intro l c hc
    cases l with
    | nil => simp [chunkedAux] at hc
    | cons x xs =>
      simp only [chunkedAux, List.mem_cons] at hc
      cases hc with
      | inl h =>
        subst h
        have := List.length_take_le (n - 1) xs
        simp only [List.length_cons]
        omega
      | inr h => exact ih _ c h

theorem gather_map_ok {f : Nat → Except Err HtmlPage} {g : Nat → HtmlPage} :
    ∀ (l : List Nat), (∀ p ∈ l, f p = .ok (g p)) → gather (l.map f) = .ok (l.map g) := by
  intro l
  induction l with
  | nil => intro _; rfl
  | cons x xs ih =>
    intro h
    have hx := h x (List.mem_cons_self x xs)
    have ih' := ih (fun p hp => h p (List.mem_cons_of_mem _ hp))
    simp [gather, hx, ih']

theorem gather_map_err {f : Nat → Except Err HtmlPage} {g : Nat → HtmlPage} {k : Nat} {e : Err}
    (hk : f k = .error e) :
    ∀ (l : List Nat), k ∈ l → (∀ p ∈ l, p ≠ k → f p = .ok (g p)) →
      gather (l.map f) = .error e := by
  intro l
  induction l with
  | nil => intro h; simp at h
  | cons x xs ih =>
    intro hmem hok
    by_cases hx : x = k
    · subst hx
      simp [gather, hk]
    · have hfx := hok x (List.mem_cons_self x xs) hx
      have hkxs : k ∈ xs := by
        cases List.mem_cons.mp hmem with
        | inl h => exact absurd h.symm hx
        | inr h => exact h
      have := ih hkxs (fun p hp hpk => hok p (List.mem_cons_of_mem _ hp) hpk)
      simp [gather, hfx, this]

theorem drainChunk_map_ok {pg : Nat → HtmlPage} {recs : Nat → List HfrPost} :
    ∀ (l : List Nat), (∀ p ∈ l, parse_page (pg p) = .ok (recs p)) →
      drainChunk (l.map pg) = (l.flatMap recs, none) := by
  intro l
  induction l with
  | nil => intro _; rfl
  | cons x xs ih =>
    intro h
    have hx := h x (List.mem_cons_self x xs)
    have ih' := ih (fun p hp => h p (List.mem_cons_of_mem _ hp))
    simp [drainChunk, hx, ih', List.flatMap_cons]

theorem drainChunk_map_err {pg : Nat → HtmlPage} {recs : Nat → List HfrPost} {k : Nat} {e : Err}
    (hk : parse_page (pg k) = .error e) :
    ∀ (l : List Nat), k ∈ l → (∀ p ∈ l, p ≠ k → parse_page (pg p) = .ok (recs p)) →
      ∃ pre, pre <+: l ∧ k ∉ pre ∧ drainChunk (l.map pg) = (pre.flatMap recs, some e) := by
  intro l
  induction l with
  | nil => intro h; simp at h
  | cons x xs ih =>
    intro hmem hok
    by_cases hx : x = k
    · subst hx
      refine ⟨[], ⟨x :: xs, rfl⟩, by simp, ?_⟩
      simp [drainChunk, hk]
    · have hpx := hok x (List.mem_cons_self x xs) hx
      have hkxs : k ∈ xs := by
        cases List.mem_cons.mp hmem with
        | inl h => exact absurd h.symm hx
        | inr h => exact h
      obtain ⟨pre, ⟨t, ht⟩, hknp, hdrain⟩ :=
        ih hkxs (fun p hp hpk => hok p (List.mem_cons_of_mem _ hp) hpk)
      refine ⟨x :: pre, ⟨t, by rw [List.cons_append, ht]⟩, ?_, ?_⟩
      · simp only [List.mem_cons, not_or]
        exact ⟨fun h => hx h.symm, hknp⟩
      · simp [drainChunk, hpx, hdrain, List.flatMap_cons]

theorem runChunks_all_ok {fetch : Nat → Except Err HtmlPage} {pg : Nat → HtmlPage}
    {recs : Nat → List HfrPost} :
    ∀ (chs : List (List Nat)),
      (∀ p ∈ chs.flatten, fetch p = .ok (pg p) ∧ parse_page (pg p) = .ok (recs p)) →
      runChunks fetch chs = (chs.flatten.flatMap recs, none) := by
  intro chs
  induction chs with
  | nil => intro _; rfl
  | cons ch rest ih =>
    intro h
    have hch : ∀ p ∈ ch, fetch p = .ok (pg p) := fun p hp =>
      (h p (by simp [List.flatten_cons, hp])).1
    have hchp : ∀ p ∈ ch, parse_page (pg p) = .ok (recs p) := fun p hp =>
      (h p (by simp [List.flatten_cons, hp])).2
    have ih' := ih (fun p hp => h p (by rw [List.flatten_cons]; exact List.mem_append_right _ hp))
    simp [runChunks, gather_map_ok ch hch, drainChunk_map_ok ch hchp, ih',
      List.flatten_cons, List.flatMap_append]

theorem runChunks_err {fetch : Nat → Except Err HtmlPage} {pg : Nat → HtmlPage}
    {recs : Nat → List HfrPost} {k : Nat} {e : Err}
    (hfail : fetch k = .error e ∨ (fetch k = .ok (pg k) ∧ parse_page (pg k) = .error e)) :
    ∀ (chs : List (List Nat)), k ∈ chs.flatten →
      (∀ p ∈ chs.flatten, p ≠ k → fetch p = .ok (pg p) ∧ parse_page (pg p) = .ok (recs p)) →
      ∃ pre, pre <+: chs.flatten ∧ k ∉ pre ∧
        runChunks fetch chs = (pre.flatMap recs, some e) := by
  intro chs
  induction chs with
  | nil => intro h; simp at h
  | cons ch rest ih =>
    intro hmem hok
    by_cases hkch : k ∈ ch
    · cases hfail with
      | inl hf =>
        refine ⟨[], ⟨(ch :: rest).flatten, rfl⟩, by simp, ?_⟩
        have hgather := @gather_map_err fetch pg k e hf ch hkch
          (fun p hp hpk => (hok p (by simp [List.flatten_cons, hp]) hpk).1)
        simp [runChunks, hgather]
      | inr hpf =>
        have hfetch : ∀ p ∈ ch, fetch p = .ok (pg p) := by
          intro p hp
          by_cases hpk : p = k
          · subst hpk; exact hpf.1
          · exact (hok p (by simp [List.flatten_cons, hp]) hpk).1
        obtain ⟨pre, hpre, hknp, hdrain⟩ := @drainChunk_map_err pg recs k e hpf.2 ch hkch
          (fun p hp hpk => (hok p (by simp [List.flatten_cons, hp]) hpk).2)
        obtain ⟨t, ht⟩ := hpre
        refine ⟨pre, ⟨t ++ rest.flatten, by rw [List.flatten_cons, ← ht]; simp⟩, hknp, ?_⟩
        simp [runChunks, gather_map_ok ch hfetch, hdrain]
    · have hch : ∀ p ∈ ch, fetch p = .ok (pg p) ∧ parse_page (pg p) = .ok (recs p) := by
        intro p hp
        exact hok p (by simp [List.flatten_cons, hp]) (fun hpk => hkch (hpk ▸ hp))
      have hkrest : k ∈ rest.flatten := by
        rw [List.flatten_cons] at hmem
        cases List.mem_append.mp hmem with
        | inl h => exact absurd h hkch
        | inr h => exact h
      obtain ⟨pre, ⟨t, ht⟩, hknp, hrun⟩ :=
        ih hkrest (fun p hp hpk =>
          hok p (by rw [List.flatten_cons]; exact List.mem_append_right _ hp) hpk)
      refine ⟨ch ++ pre, ⟨t, by rw [List.flatten_cons, List.append_assoc, ht]⟩, ?_, ?_⟩
      · simp only [List.mem_append, not_or]
        exact ⟨hkch, hknp⟩
      · have hg := gather_map_ok ch (fun p hp => (hch p hp).1)
        have hd := drainChunk_map_ok ch (fun p hp => (hch p hp).2)
        simp [runChunks, hg, hd, hrun, List.flatMap_append]

theorem prefix_range'_eq : ∀ (pre : List Nat) (s n : Nat), pre <+: List.range' s n →
    pre = List.range' s pre.length := by
  intro pre
  induction pre with
  | nil => intro s n _; rfl
  | cons x xs ih =>
    intro s n h
    obtain ⟨t, ht⟩ := h
    cases n with
    | zero => simp at ht
    | succ n' =>
      rw [List.range'_succ] at ht
      have hx : x = s := (List.cons.injEq .. ▸ ht).1
      have hxs : xs ++ t = List.range' (s + 1) n' := (List.cons.injEq .. ▸ ht).2
      have := ih (s + 1) n' ⟨t, hxs⟩
      rw [List.length_cons, List.range'_succ, hx, ← this]

theorem foldl_max_spec : ∀ (l : List Nat) (m : Nat),
    l.foldl Nat.max m ∈ m :: l ∧ ∀ x ∈ m :: l, x ≤ l.foldl Nat.max m := by
  intro l
  induction l with
  | nil => intro m; simp
  | cons y ys ih =>
    intro m
    have hmain := ih (Nat.max m y)
    have hfold : (y :: ys).foldl Nat.max m = ys.foldl Nat.max (Nat.max m y) := rfl
    constructor
    · rw [hfold]
      rcases List.mem_cons.mp hmain.1 with h | h
      · rcases max_choice m y with hm | hm
        · exact List.mem_cons.mpr (.inl (h.trans hm))
        · exact List.mem_cons.mpr (.inr (List.mem_cons.mpr (.inl (h.trans hm))))
      · exact List.mem_cons.mpr (.inr (List.mem_cons.mpr (.inr h)))
    · intro x hx
      rw [hfold]
      rcases List.mem_cons.mp hx with hx | hx
      · subst hx
        exact le_trans (Nat.le_max_left x y) (hmain.2 _ (List.mem_cons_self ..))
      · rcases List.mem_cons.mp hx with hx | hx
        · subst hx
          exact le_trans (Nat.le_max_right m x) (hmain.2 _ (List.mem_cons_self ..))
        · exact hmain.2 x (List.mem_cons_of_mem _ hx)

theorem allSome_map_some : ∀ (vals : List String), allSome (vals.map some) = some vals := by
  intro vals
  induction vals with
  | nil => rfl
  | cons v vs ih => simp [allSome, ih]

theorem parseBlock_ok_shape {b : MessageBlock} {r : HfrPost} (h : parseBlock b = .ok r) :
    r.author = b.author ∧ ∃ dt, r.timestamp = PyDatetime.aware dt "Europe/Paris" := by
  rcases hb : b.toolbarLeft with _ | t <;> simp [parseBlock, hb] at h
  rcases hs : searchTs t.data with _ | ⟨d, mo, y, hh, mi, ss⟩ <;> simp only [hs] at h
  · exact absurd h (by simp)
  rcases hp : strptime_dmY_HMS d mo y hh mi ss with _ | dt <;> simp only [hp] at h
  · exact absurd h (by simp)
  rcases h with ⟨rfl⟩ | h
  exact ⟨rfl, dt, rfl⟩

theorem parseBlocks_spec : ∀ (bs : List MessageBlock) (posts : List HfrPost),
    parseBlocks bs = .ok posts →
    ∀ r ∈ posts, (∃ dt, r.timestamp = PyDatetime.aware dt "Europe/Paris") ∧
      ∃ b ∈ bs, r.author = b.author := by
  intro bs
  induction bs with
  | nil =>
    intro posts h r hr
    simp only [parseBlocks, Except.ok.injEq] at h
    subst h
    simp at hr
  | cons b bs ih =>
    intro posts h r hr
    by_cases hb : b.author = some "Publicité"
    · rw [parseBlocks, if_pos hb] at h
      obtain ⟨hts, b', hb', ha⟩ := ih posts h r hr
      exact ⟨hts, b', List.mem_cons_of_mem _ hb', ha⟩
    · rw [parseBlocks, if_neg hb] at h
      rcases hpb : parseBlock b with e | post <;> rw [hpb] at h
      · exact absurd h (by simp)
      · rcases hbs : parseBlocks bs with e | rest <;> rw [hbs] at h
        · exact absurd h (by simp)
        · have hposts : posts = post :: rest := ((Except.ok.injEq .. ▸ h).symm)
          subst hposts
          rcases List.mem_cons.mp hr with hr | hr
          · subst hr
            obtain ⟨ha, dt, hts⟩ := parseBlock_ok_shape hpb
            exact ⟨⟨dt, hts⟩, b, List.mem_cons_self .., ha⟩
          · obtain ⟨hts, b', hb', ha⟩ := ih rest hbs r hr
            exact ⟨hts, b', List.mem_cons_of_mem _ hb', ha⟩

/- ### Claim theorems -/

/-- C3 (code evaluation): the trace hook of the source logs the retry of the
final configured attempt (3 of 3) at INFO level and an earlier retry (2 of 3)
at WARNING level — the opposite of the spec's severity mapping
(`specRetryLevel`) — while first attempts emit nothing. -/
theorem on_request_start_severity_inverted :
    (on_request_start 3 "GET" "https://forum.hardware.fr/forum2.php" 3).map LogEvent.level
        = some LogLevel.info
    ∧ (on_request_start 3 "GET" "https://forum.hardware.fr/forum2.php" 2).map LogEvent.level
        = some LogLevel.warning
    ∧ specRetryLevel 3 3 = LogLevel.warning
    ∧ specRetryLevel 3 2 = LogLevel.info
    ∧ on_request_start 3 "GET" "https://forum.hardware.fr/forum2.php" 1 = none
    ∧ on_request_start 3 "GET" "https://forum.hardware.fr/forum2.php" 2
        = some ⟨.warning, "GET", "https://forum.hardware.fr/forum2.php", 2, 3⟩ := by
  refine ⟨rfl, rfl, rfl, rfl, rfl, rfl⟩

/-- C4 (counterexample): a page whose single message block has no `.s2`
element parses successfully into one record whose author is `none` — not
non-empty text — refuting "every record's author is non-empty text". -/
theorem parse_page_author_missing_counterexample :
    parse_page authorlessPage = .ok [⟨none, exampleStamp⟩]
    ∧ ¬ authorNonEmpty ⟨none, exampleStamp⟩ := by
  constructor
  · decide
  · rintro ⟨s, hs, _⟩
    exact Option.noConfusion hs

/-- C4 (amended): every record produced by `parse_page` has a timestamp that
is timezone-aware in the fixed "Europe/Paris" zone (never naive) with full
date+time+seconds resolution, and an author copied verbatim from one of the
page's message blocks; author non-emptiness is not enforced. -/
theorem parse_page_records_paris_aware
    (page : HtmlPage) (posts : List HfrPost) (h : parse_page page = .ok posts) :
    ∀ r ∈ posts, (∃ dt, r.timestamp = PyDatetime.aware dt "Europe/Paris") ∧
      ∃ b ∈ page.messageBlocks, r.author = b.author := by
  intro r hr
  rw [parse_page] at h
  by_cases hc : page.content = ""
  · rw [if_pos hc] at h
    exact absurd h (by simp)
  · rw [if_neg hc] at h
    exact parseBlocks_spec page.messageBlocks posts h r hr

/-- C4 witness: the amended theorem applied to a concrete one-block page. -/
theorem parse_page_records_paris_aware_witness :
    (∃ dt, (⟨some "alice", exampleStamp⟩ : HfrPost).timestamp
        = PyDatetime.aware dt "Europe/Paris") ∧
    ∃ b ∈ [(⟨some "alice", some exampleToolbar⟩ : MessageBlock)],
      (⟨some "alice", exampleStamp⟩ : HfrPost).author = b.author :=
  parse_page_records_paris_aware ⟨"w", [⟨some "alice", some exampleToolbar⟩], []⟩
    [⟨some "alice", exampleStamp⟩] (by decide) ⟨some "alice", exampleStamp⟩ (by decide)

/-- C5: page-count discovery keeps the purely numeric header labels and
returns their maximum — on labels 1, 2, 10, "Prev" it returns 10; when every
label is non-numeric it fails with the parsing assertion; and whenever it
returns a count, that count is the maximum of the numeric labels. -/
theorem get_total_page_count_spec :
    get_total_page_count headerExamplePage = .ok 10
    ∧ (∀ (p : HtmlPage) (vals : List String), p.pageHeaders = vals.map some →
        (∀ v ∈ vals, pyIsdigit v = false) → get_total_page_count p = .error .noPageCount)
    ∧ (∀ (p : HtmlPage) (vals : List String) (n : Nat), p.pageHeaders = vals.map some →
        get_total_page_count p = .ok n →
        n ∈ (vals.filter pyIsdigit).map natOfDigits ∧
          ∀ x ∈ (vals.filter pyIsdigit).map natOfDigits, x ≤ n) := by
  refine ⟨by decide, ?_, ?_⟩
  · intro p vals hp hno
    have hfilter : vals.filter pyIsdigit = [] := by
      rw [List.filter_eq_nil_iff]
      intro v hv
      simp [hno v hv]
    simp [get_total_page_count, hp, allSome_map_some, hfilter]
  · intro p vals n hp hok
    simp only [get_total_page_count, hp, allSome_map_some] at hok
    rcases hnums : (vals.filter pyIsdigit).map natOfDigits with _ | ⟨m, rest⟩ <;>
      rw [hnums] at hok
    · exact absurd hok (by simp)
    · have hfold : List.foldl Nat.max m rest = n := by simpa using hok
      obtain ⟨hmem, hbound⟩ := foldl_max_spec rest m
      rw [← hfold]
      exact ⟨hmem, hbound⟩

/-- C5 witness: the general conjuncts applied at concrete header lists. -/
theorem get_total_page_count_spec_witness :
    get_total_page_count ⟨"h", [], [some "Prev", some "Next"]⟩ = .error .noPageCount
    ∧ (10 ∈ (["1", "2", "10", "Prev"].filter pyIsdigit).map natOfDigits
       ∧ ∀ x ∈ (["1", "2", "10", "Prev"].filter pyIsdigit).map natOfDigits, x ≤ 10) :=
  ⟨get_total_page_count_spec.2.1 ⟨"h", [], [some "Prev", some "Next"]⟩ ["Prev", "Next"]
      rfl (by decide),
   get_total_page_count_spec.2.2 headerExamplePage ["1", "2", "10", "Prev"] 10 rfl (by decide)⟩

/-- C6: on a block whose toolbar text is
`"Posté le 15-03-2020\xa0à\xa014:30:05"` (non-breaking spaces around the
`à`), `parse_page` produces the timestamp 2020-03-15 14:30:05 localized to
"Europe/Paris": the pattern extracts date and time, `strptime` combines them
into a naive instant, and localization attaches the fixed zone. -/
theorem parse_page_timestamp_example (a : Option String) (ha : ¬ a = some "Publicité") :
    parse_page ⟨"<html>", [⟨a, some exampleToolbar⟩], []⟩ = .ok [⟨a, exampleStamp⟩]
    ∧ searchTs exampleToolbar.data = some (15, 3, 2020, 14, 30, 5)
    ∧ strptime_dmY_HMS 15 3 2020 14 30 5 = some ⟨2020, 3, 15, 14, 30, 5⟩
    ∧ PARIS_TZ_localize ⟨2020, 3, 15, 14, 30, 5⟩ = exampleStamp := by
  have hsearch : searchTs exampleToolbar.data = some (15, 3, 2020, 14, 30, 5) := by decide
  have hstrp : strptime_dmY_HMS 15 3 2020 14 30 5 = some ⟨2020, 3, 15, 14, 30, 5⟩ := by decide
  refine ⟨?_, hsearch, hstrp, rfl⟩
  have hc : ¬(("<html>" : String) = "") := by decide
  simp [parse_page, hc, parseBlocks, ha, parseBlock, hsearch, hstrp, exampleStamp,
    PARIS_TZ_localize]

/-- C6 witness: the theorem applied to a concrete non-advertisement author. -/
theorem parse_page_timestamp_example_witness :
    parse_page ⟨"<html>", [⟨some "bob", some exampleToolbar⟩], []⟩
        = .ok [⟨some "bob", exampleStamp⟩]
    ∧ searchTs exampleToolbar.data = some (15, 3, 2020, 14, 30, 5)
    ∧ strptime_dmY_HMS 15 3 2020 14 30 5 = some ⟨2020, 3, 15, 14, 30, 5⟩
    ∧ PARIS_TZ_localize ⟨2020, 3, 15, 14, 30, 5⟩ = exampleStamp :=
  parse_page_timestamp_example (some "bob") (by decide)

/-- C7: a block whose author equals the advertisement sentinel "Publicité" is
skipped by the extraction loop — it contributes no record and raises no error
— so a page holding one parseable non-advertisement block and one
advertisement block (in either order) yields exactly the one record of the
non-advertisement block. -/
theorem parse_page_skips_advertisement
    (content : String) (hc : ¬ content = "")
    (ad g : MessageBlock) (had : ad.author = some "Publicité")
    (hgna : ¬ g.author = some "Publicité")
    (r : HfrPost) (hg : parseBlock g = .ok r) :
    (∀ bs, parseBlocks (ad :: bs) = parseBlocks bs)
    ∧ parse_page ⟨content, [ad, g], []⟩ = .ok [r]
    ∧ parse_page ⟨content, [g, ad], []⟩ = .ok [r] := by
  refine ⟨fun bs => by rw [parseBlocks, if_pos had], ?_, ?_⟩
  · simp [parse_page, hc, parseBlocks, had, hgna, hg]
  · simp [parse_page, hc, parseBlocks, had, hgna, hg]

/-- C7 witness: concrete advertisement and regular blocks. -/
theorem parse_page_skips_advertisement_witness :
    (∀ bs, parseBlocks (⟨some "Publicité", none⟩ :: bs) = parseBlocks bs)
    ∧ parse_page ⟨"x", [⟨some "Publicité", none⟩, ⟨some "bob", some exampleToolbar⟩], []⟩
        = .ok [⟨some "bob", exampleStamp⟩]
    ∧ parse_page ⟨"x", [⟨some "bob", some exampleToolbar⟩, ⟨some "Publicité", none⟩], []⟩
        = .ok [⟨some "bob", exampleStamp⟩] :=
  parse_page_skips_advertisement "x" (by decide) ⟨some "Publicité", none⟩
    ⟨some "bob", some exampleToolbar⟩ rfl (by decide) ⟨some "bob", exampleStamp⟩ (by decide)

/-- C8: `parse_page` on empty content fails with the input-validation
assertion regardless of anything else, and on a page whose (non-advertisement)
block has toolbar text the timestamp pattern does not match, it fails with the
parsing assertion instead of skipping the block. -/
theorem parse_page_error_cases :
    (∀ (bs : List MessageBlock) (hdrs : List (Option String)),
        parse_page ⟨"", bs, hdrs⟩ = .error .emptyContent)
    ∧ (∀ (content : String) (a : Option String) (t : String),
        ¬ content = "" → ¬ a = some "Publicité" → searchTs t.data = none →
        parse_page ⟨content, [⟨a, some t⟩], []⟩ = .error .timestampNoMatch) := by
  constructor
  · intro bs hdrs
    rfl
  · intro content a t hc ha hst
    simp [parse_page, hc, parseBlocks, ha, parseBlock, hst]

/-- C8 witness: empty input and a concrete unmatched toolbar text. -/
theorem parse_page_error_cases_witness :
    parse_page ⟨"", [], []⟩ = .error .emptyContent
    ∧ parse_page ⟨"x", [⟨some "bob", some "edited on 2020"⟩], []⟩
        = .error .timestampNoMatch :=
  ⟨parse_page_error_cases.1 [] [],
   parse_page_error_cases.2 "x" (some "bob") "edited on 2020" (by decide) (by decide) (by decide)⟩

/-- C9: `HfrCovid19.__init__` accepts exactly the configurations whose three
identifiers are positive integers, storing them; any non-positive or
non-integer field trips the constructor assertion — a pure check made before
any network activity (construction builds no request). -/
theorem hfr_init_validation :
    (∀ c s p : Int, 0 < c → 0 < s → 0 < p →
        HfrCovid19_init (.vint c) (.vint s) (.vint p) = .ok ⟨c, s, p⟩)
    ∧ (∀ a b c : PyVal, ¬(isPosInt a = true ∧ isPosInt b = true ∧ isPosInt c = true) →
        HfrCovid19_init a b c = .error .badConfig) := by
  constructor
  · intro c s p hc hs hp
    simp [HfrCovid19_init, hc, hs, hp]
  · intro a b c h
    rcases a with n | _
    · rcases b with m | _
      · rcases c with k | _
        · have hnpos : ¬(0 < n ∧ 0 < m ∧ 0 < k) := by
            rintro ⟨h1, h2, h3⟩
            exact h ⟨by simp [isPosInt, h1], by simp [isPosInt, h2], by simp [isPosInt, h3]⟩
          simp [HfrCovid19_init, hnpos]
        · rfl
      · rfl
    · rfl

/-- C9 witness: the source's default configuration is accepted; a zero and a
non-integer field are rejected. -/
theorem hfr_init_validation_witness :
    HfrCovid19_init (.vint 13) (.vint 422) (.vint 118532) = .ok ⟨13, 422, 118532⟩
    ∧ HfrCovid19_init (.vint 0) (.vint 422) (.vint 118532) = .error .badConfig
    ∧ HfrCovid19_init (.vint 13) .vnonint (.vint 118532) = .error .badConfig :=
  ⟨hfr_init_validation.1 13 422 118532 (by decide) (by decide) (by decide),
   hfr_init_validation.2 (.vint 0) (.vint 422) (.vint 118532) (by decide),
   hfr_init_validation.2 (.vint 13) .vnonint (.vint 118532) (by decide)⟩

/-- C10: `get_page_content` asserts its page number is a positive integer
before building the request, so every non-positive or non-integer argument
fails with the assertion and no request is ever constructed; positive
integers yield exactly the fixed URL and query parameters of the source. -/
theorem get_page_content_request_assert (cfg : Config) :
    (∀ v : PyVal, isPosInt v = false → get_page_content_request cfg v = .error .badPageNumber)
    ∧ (∀ n : Int, 0 < n → get_page_content_request cfg (.vint n) =
        .ok ⟨"https://forum.hardware.fr/forum2.php", "hfr.inc",
             cfg.cat, cfg.sub_cat, cfg.post, n⟩) := by
  constructor
  · intro v hv
    rcases v with n | _
    · have hn : ¬(0 < n) := by simpa [isPosInt] using hv
      simp [get_page_content_request, hn]
    · rfl
  · intro n hn
    simp [get_page_content_request, hn]

/-- C10 witness: rejection at 0 and at a non-integer, acceptance at page 1. -/
theorem get_page_content_request_assert_witness :
    get_page_content_request ⟨13, 422, 118532⟩ (.vint 0) = .error .badPageNumber
    ∧ get_page_content_request ⟨13, 422, 118532⟩ .vnonint = .error .badPageNumber
    ∧ get_page_content_request ⟨13, 422, 118532⟩ (.vint 1) =
        .ok ⟨"https://forum.hardware.fr/forum2.php", "hfr.inc", 13, 422, 118532, 1⟩ :=
  ⟨(get_page_content_request_assert ⟨13, 422, 118532⟩).1 (.vint 0) (by decide),
   (get_page_content_request_assert ⟨13, 422, 118532⟩).1 .vnonint (by decide),
   (get_page_content_request_assert ⟨13, 422, 118532⟩).2 1 (by decide)⟩

set_option maxRecDepth 10000 in
/-- C1: for every discovered `max_page`, the orchestrator partitions the page
numbers 1..max_page into consecutive groups of at most 100 (a 250-page topic
gives groups of sizes 100, 100, 50), processes them sequentially, and — when
every fetch and extraction succeeds — emits exactly the concatenation of each
page's records in ascending page-number order. -/
theorem parse_all_pages_batches_ordered
    (fetch : Nat → Except Err HtmlPage) (pg : Nat → HtmlPage)
    (recs : Nat → List HfrPost) (maxPage : Nat)
    (h1 : fetch 1 = .ok (pg 1))
    (hmax : get_total_page_count (pg 1) = .ok maxPage)
    (hok : ∀ p ∈ List.range' 1 maxPage,
      fetch p = .ok (pg p) ∧ parse_page (pg p) = .ok (recs p)) :
    parse_all_pages fetch = ((List.range' 1 maxPage).flatMap recs, none)
    ∧ (chunked 100 (List.range' 1 maxPage)).flatten = List.range' 1 maxPage
    ∧ (∀ c ∈ chunked 100 (List.range' 1 maxPage), c.length ≤ 100)
    ∧ (chunked 100 (List.range' 1 250)).map List.length = [100, 100, 50] := by
  have hflat := chunked_flatten 100 (List.range' 1 maxPage)
  refine ⟨?_, hflat, chunked_length_le 100 (by omega) _, by decide⟩
  have hrun := @runChunks_all_ok fetch pg recs
    (chunked 100 (List.range' 1 maxPage)) (by rw [hflat]; exact hok)
  simp only [parse_all_pages, h1, hmax]
  rw [hrun, hflat]

/-- C1 witness: a topic whose first page discovers 10 pages of empty content
is crawled into the empty ordered concatenation. -/
theorem parse_all_pages_batches_ordered_witness :
    parse_all_pages (fun _ => .ok headerExamplePage)
        = ((List.range' 1 10).flatMap (fun _ => ([] : List HfrPost)), none)
    ∧ (chunked 100 (List.range' 1 10)).flatten = List.range' 1 10
    ∧ (∀ c ∈ chunked 100 (List.range' 1 10), c.length ≤ 100)
    ∧ (chunked 100 (List.range' 1 250)).map List.length = [100, 100, 50] :=
  parse_all_pages_batches_ordered (fun _ => .ok headerExamplePage)
    (fun _ => headerExamplePage) (fun _ => []) 10 rfl (by decide) (by decide)

/-- C2: if exactly one page `k` of the discovered range fails (its fetch, or
its extraction), the orchestrated sequence terminates with that failure, and
what was yielded is the concatenated records of an initial run of pages
strictly before `k` — a prefix of the output of a fully successful run; no
record is emitted out of page order or past the failure point. -/
theorem parse_all_pages_failure_is_prefix
    (fetch : Nat → Except Err HtmlPage) (pg : Nat → HtmlPage)
    (recs : Nat → List HfrPost) (maxPage k : Nat) (e : Err)
    (h1 : fetch 1 = .ok (pg 1))
    (hmax : get_total_page_count (pg 1) = .ok maxPage)
    (hk : k ∈ List.range' 1 maxPage)
    (hfail : fetch k = .error e ∨ (fetch k = .ok (pg k) ∧ parse_page (pg k) = .error e))
    (hok : ∀ p ∈ List.range' 1 maxPage, p ≠ k →
      fetch p = .ok (pg p) ∧ parse_page (pg p) = .ok (recs p)) :
    ∃ m, m < k ∧
      parse_all_pages fetch = ((List.range' 1 m).flatMap recs, some e) ∧
      (List.range' 1 m).flatMap recs <+: (List.range' 1 maxPage).flatMap recs := by
  have hflat := chunked_flatten 100 (List.range' 1 maxPage)
  obtain ⟨pre, hpre, hknpre, hrun⟩ := @runChunks_err fetch pg recs k e
    hfail (chunked 100 (List.range' 1 maxPage))
    (by rw [hflat]; exact hk) (by rw [hflat]; exact hok)
  rw [hflat] at hpre
  have hpreeq := prefix_range'_eq pre 1 maxPage hpre
  obtain ⟨t, ht⟩ := hpre
  refine ⟨pre.length, ?_, ?_, ?_⟩
  · have hk' := List.mem_range'_1.mp hk
    by_contra hmk
    push_neg at hmk
    apply hknpre
    rw [hpreeq]
    exact List.mem_range'_1.mpr ⟨hk'.1, by omega⟩
  · rw [hpreeq] at hrun
    simp only [parse_all_pages, h1, hmax]
    exact hrun
  · rw [← hpreeq]
    exact ⟨t.flatMap recs, by rw [← List.flatMap_append, ht]⟩

/-- C2 witness: a two-page topic whose second page permanently fails to fetch
yields no record and terminates with the fetch failure. -/
theorem parse_all_pages_failure_is_prefix_witness :
    ∃ m, m < 2 ∧
      parse_all_pages (fun n => if n = 1 then .ok twoPage else .error .fetchFailed)
        = ((List.range' 1 m).flatMap (fun _ => ([] : List HfrPost)), some .fetchFailed) ∧
      (List.range' 1 m).flatMap (fun _ => ([] : List HfrPost)) <+:
        (List.range' 1 2).flatMap (fun _ => ([] : List HfrPost)) :=
  parse_all_pages_failure_is_prefix (fun n => if n = 1 then .ok twoPage else .error .fetchFailed)
    (fun _ => twoPage) (fun _ => []) 2 2 .fetchFailed rfl (by decide) (by decide)
    (Or.inl rfl) (by decide)

end HfrTopic
